import Mathlib

/-!
Verification of the real-time stream ingestion subsystem of the tradebot
operator dashboard: the `WebSocketManager` (envelope validation via the zod
`envelopeSchema`, per-channel sequence tracking with gap signalling,
subscription registry fan-out, and the connect/closeAll lifecycle).

The TypeScript source is embedded shallowly:
- decoded wire values (the result of `JSON.parse`) are modelled by `JValue`,
  with JS numbers modelled as rationals (`z.number().int()` is the check that
  the rational is an integer);
- the manager's mutable `Map`s are association lists with JS `Map` get/set
  semantics (`mapGet`/`mapSet`);
- handler and observer function references are modelled by natural-number
  identities (JS `!==` on function references is identity comparison);
- each operation returns the new manager state together with the list of
  observable events it produced (gap-observer calls, handler invocations,
  transport closes);
- `JSON.parse` is an abstract partial function `String → Option JValue`; a
  `none` result models the `SyntaxError` it throws on malformed input, and
  `handleMessage` returning `none` models that exception propagating out of
  the message callback (the source has no try/catch around `JSON.parse`).
-/

namespace TradeBot

/-- A decoded JSON-compatible structured value, as produced by `JSON.parse`.
Numbers are modelled as rationals: JS numbers are not always integers, and
`z.number().int().nonnegative()` checks integrality and sign. -/
inductive JValue where
  | null : JValue
  | bool (b : Bool) : JValue
  | num (q : Rat) : JValue
  | str (s : String) : JValue
  | arr (elems : List JValue) : JValue
  | obj (fields : List (String × JValue)) : JValue

/-- Field lookup on a decoded object: `fields[key]`, `none` when the key is
absent (JS `undefined`). -/
def jget : List (String × JValue) → String → Option JValue
  | [], _ => none
  | p :: rest, key => if p.1 = key then some p.2 else jget rest key

/-- The fixed set of channel names accepted by
`z.enum(['market', 'portfolio', 'system'])` in `envelopeSchema`. -/
def knownStreams : List String := ["market", "portfolio", "system"]

/-- The validated envelope produced by `envelopeSchema.safeParse`, i.e. the
wire unit `{ kind, stream, sequence, payload }` after validation. `payload`
is the raw field value; `none` records that the key was absent
(`z.unknown()` accepts an absent key). -/
structure Envelope where
  kind : String
  stream : String
  sequence : Int
  payload : Option JValue

/-- `z.string()` applied to a field value: succeeds exactly on present
string values. -/
def parseString (o : Option JValue) : Option String :=
  match o with
  | some (.str s) => some s
  | _ => none

/-- `z.enum(['market', 'portfolio', 'system'])` applied to a field value:
a present string that is one of the fixed channel names. -/
def parseEnum (o : Option JValue) : Option String :=
  match o with
  | some (.str s) => if s ∈ knownStreams then some s else none
  | _ => none

/-- `z.number().int().nonnegative()` applied to a field value: a present
number that is a non-negative integer; yields its integer value. -/
def parseSeq (o : Option JValue) : Option Int :=
  match o with
  | some (.num q) => if q.den = 1 ∧ 0 ≤ q then some q.num else none
  | _ => none

/-- `envelopeSchema.safeParse`: a non-throwing structural validation of a
decoded value. The input must be a plain object whose `kind` field is a
string, whose `stream` field is one of the fixed channel names, and whose
`sequence` field is a non-negative integer; `payload` is passed through
unchecked (`z.unknown()`), including when absent. -/
def safeParse (v : JValue) : Option Envelope :=
  match v with
  | .obj fields =>
    match parseString (jget fields "kind"),
          parseEnum (jget fields "stream"),
          parseSeq (jget fields "sequence") with
    | some k, some s, some q => some ⟨k, s, q, jget fields "payload"⟩
    | _, _, _ => none
  | _ => none

/-- Observable events produced by manager operations: a call to the
registered gap observer, a handler invocation during dispatch, and a
transport-connection close. `invoke` records the channel whose dispatch
invoked the handler. -/
inductive Event where
  | gap (stream : String) (expected actual : Int) : Event
  | invoke (stream : String) (handler : Nat) (env : Envelope) : Event
  | closed (socket : Nat) : Event

/-- Whether an event is a gap signal. -/
def Event.isGap : Event → Bool
  | .gap _ _ _ => true
  | _ => false

/-- Whether an event is a handler invocation. -/
def Event.isInvoke : Event → Bool
  | .invoke _ _ _ => true
  | _ => false

/-- JS `Map.get`: the value stored under the first (only) occurrence of the
key, `undefined` (`none`) when absent. -/
def mapGet {α : Type} : List (String × α) → String → Option α
  | [], _ => none
  | p :: rest, k => if p.1 = k then some p.2 else mapGet rest k

/-- JS `Map.set`: replace the value under an existing key in place, or
append a new entry. -/
def mapSet {α : Type} : List (String × α) → String → α → List (String × α)
  | [], k, v => [(k, v)]
  | p :: rest, k, v => if p.1 = k then (k, v) :: rest else p :: mapSet rest k v

/-- The `WebSocketManager` instance state: the `sockets` map (channel name to
transport-connection identity, with a counter supplying fresh identities),
the `handlers` map (channel name to the ordered list of subscribed handler
identities), the `lastSeq` map (channel name to last-accepted sequence
number), and the single optional gap observer. -/
structure Manager where
  sockets : List (String × Nat)
  nextSock : Nat
  handlers : List (String × List Nat)
  lastSeq : List (String × Int)
  gapHandler : Option Nat

/-- A freshly constructed `WebSocketManager`: all maps empty, no observer. -/
def Manager.init : Manager := ⟨[], 0, [], [], none⟩

/-- `onGapDetected(handler)`: store the observer; last registration wins. -/
def onGapDetected (st : Manager) (g : Nat) : Manager :=
  { st with gapHandler := some g }

/-- `subscribe(stream, handler)`: append the handler to the channel's list
(`[...(get ?? []), handler]`). The returned disposer is modelled by
`dispose` below, applied to the same `stream` and handler identity. -/
def subscribe (st : Manager) (stream : String) (h : Nat) : Manager :=
  { st with handlers :=
      mapSet st.handlers stream ((mapGet st.handlers stream).getD [] ++ [h]) }

/-- The disposer returned by `subscribe`: store the channel's list with every
entry identical to the closed-over handler removed
(`(get ?? []).filter((h) => h !== handler)`). -/
def dispose (st : Manager) (stream : String) (h : Nat) : Manager :=
  { st with handlers :=
      (mapSet st.handlers stream
        (((mapGet st.handlers stream).getD []).filter (fun g => g ≠ h))) }

/-- `connect(stream, url)`: open a fresh transport connection and store it
under the channel name, replacing any existing map entry. The URL never
influences the manager state and is omitted. -/
def connect (st : Manager) (stream : String) : Manager :=
  { st with sockets := mapSet st.sockets stream st.nextSock,
            nextSock := st.nextSock + 1 }

/-- `closeAll()`: close every stored transport connection
(`sockets.forEach((ws) => ws.close())`) and clear the sockets map. No other
field of the manager is touched by the source. -/
def closeAll (st : Manager) : Manager × List Event :=
  ({ st with sockets := [] }, st.sockets.map (fun p => Event.closed p.2))

/-- The body of `handleMessage` after wire decoding: validate the decoded
value; on rejection return with no state change and no event; on success
compute `expected = (lastSeq.get(stream) ?? sequence - 1) + 1`, call the gap
observer when the sequence mismatches and an observer is registered, store
the received sequence, and invoke every handler registered for the
connection's channel, in order. -/
def processParsed (st : Manager) (stream : String) (v : JValue) :
    Manager × List Event :=
  match safeParse v with
  | none => (st, [])
  | some env =>
    let expected := (mapGet st.lastSeq stream).getD (env.sequence - 1) + 1
    let gapEvents :=
      if env.sequence ≠ expected ∧ st.gapHandler.isSome = true
      then [Event.gap stream expected env.sequence] else []
    ({ st with lastSeq := mapSet st.lastSeq stream env.sequence },
     gapEvents ++
       ((mapGet st.handlers stream).getD []).map
         (fun h => Event.invoke stream h env))

/-- A raw inbound message: the transport delivers either a string (to be
passed through `JSON.parse`) or an already-structured value. -/
inductive Raw where
  | str (s : String) : Raw
  | val (v : JValue) : Raw

/-- `handleMessage(stream, raw)`, for a given behaviour of `JSON.parse`
(`jsonDecode s = none` models `JSON.parse(s)` throwing `SyntaxError`).
The source computes `typeof raw === 'string' ? JSON.parse(raw) : raw` with
no try/catch, so a failed decode makes the exception escape `handleMessage`:
that outcome is the `none` result here. -/
def handleMessage (jsonDecode : String → Option JValue) (st : Manager)
    (stream : String) (raw : Raw) : Option (Manager × List Event) :=
  match raw with
  | .str s =>
    match jsonDecode s with
    | none => none
    | some v => some (processParsed st stream v)
  | .val v => some (processParsed st stream v)

/-- An externally triggered manager operation, for trace-level statements. -/
inductive Op where
  | subscribeOp (stream : String) (h : Nat) : Op
  | disposeOp (stream : String) (h : Nat) : Op
  | connectOp (stream : String) : Op
  | msg (stream : String) (v : JValue) : Op
  | gapObserver (g : Nat) : Op
  | closeAllOp : Op

/-- One operation applied to the manager state, with the events it emits. -/
def step (st : Manager) : Op → Manager × List Event
  | .subscribeOp c h => (subscribe st c h, [])
  | .disposeOp c h => (dispose st c h, [])
  | .connectOp c => (connect st c, [])
  | .msg c v => processParsed st c v
  | .gapObserver g => (onGapDetected st g, [])
  | .closeAllOp => closeAll st

/-- A sequence of operations, with the concatenated event trace. -/
def run (st : Manager) : List Op → Manager × List Event
  | [] => (st, [])
  | op :: ops =>
    let r := step st op
    let r2 := run r.1 ops
    (r2.1, r.2 ++ r2.2)

/-- A sequence of inbound decoded messages delivered on one channel. -/
def processList (st : Manager) (stream : String) :
    List JValue → Manager × List Event
  | [] => (st, [])
  | v :: vs =>
    let r := processParsed st stream v
    let r2 := processList r.1 stream vs
    (r2.1, r.2 ++ r2.2)

/-- A well-formed wire object (every envelope field present). -/
def mkMsg (stream kind : String) (seq : Int) : JValue :=
  .obj [("kind", .str kind), ("stream", .str stream),
        ("sequence", .num (seq : Rat)), ("payload", .obj [])]

/-- `n` well-formed wire objects whose sequences count up from `k` by 1. -/
def msgsFrom (stream : String) (k : Int) : Nat → List JValue
  | 0 => []
  | n + 1 => mkMsg stream "tick" k :: msgsFrom stream (k + 1) n

/-- The acceptance condition of the spec's Envelope Validator contract,
stated in the spec's own words minus the payload-presence clause: the value
is a structured object, `kind` is present and a string, the channel field is
one of the fixed known channel names, and `sequence` is an integer ≥ 0. -/
def specAccepts (v : JValue) : Prop :=
  ∃ fields, v = .obj fields ∧
    (∃ k, jget fields "kind" = some (.str k)) ∧
    (∃ c, jget fields "stream" = some (.str c) ∧ c ∈ knownStreams) ∧
    (∃ q : Rat, jget fields "sequence" = some (.num q) ∧ q.den = 1 ∧ 0 ≤ q)

/-! ### Helper lemmas -/

theorem parseString_eq_some (o : Option JValue) (k : String) :
    parseString o = some k ↔ o = some (.str k) := by
  match o with
  | none => simp [parseString]
  | some (.null) => simp [parseString]
  | some (.bool b) => simp [parseString]
  | some (.num q) => simp [parseString]
  | some (.str s) => simp [parseString]
  | some (.arr es) => simp [parseString]
  | some (.obj fs) => simp [parseString]

theorem parseEnum_eq_some (o : Option JValue) (s : String) :
    parseEnum o = some s ↔ o = some (.str s) ∧ s ∈ knownStreams := by
  match o with
  | none => simp [parseEnum]
  | some (.null) => simp [parseEnum]
  | some (.bool b) => simp [parseEnum]
  | some (.num q) => simp [parseEnum]
  | some (.str t) =>
    by_cases ht : t ∈ knownStreams <;> simp [parseEnum, ht] <;> rintro rfl <;>
      simp_all
  | some (.arr es) => simp [parseEnum]
  | some (.obj fs) => simp [parseEnum]

theorem parseSeq_eq_some (o : Option JValue) (n : Int) :
    parseSeq o = some n ↔
      ∃ q : Rat, o = some (.num q) ∧ q.den = 1 ∧ 0 ≤ q ∧ q.num = n := by
  match o with
  | none => simp [parseSeq]
  | some (.null) => simp [parseSeq]
  | some (.bool b) => simp [parseSeq]
  | some (.num q) =>
    by_cases hq : q.den = 1 ∧ 0 ≤ q
    all_goals simp [parseSeq, hq]
    all_goals tauto
  | some (.str t) => simp [parseSeq]
  | some (.arr es) => simp [parseSeq]
  | some (.obj fs) => simp [parseSeq]

theorem safeParse_mkMsg (c kind : String) (s : Int) (hc : c ∈ knownStreams)
    (hs : 0 ≤ s) :
    safeParse (mkMsg c kind s) = some ⟨kind, c, s, some (.obj [])⟩ := by
  simp [safeParse, mkMsg, jget, parseString, parseEnum, parseSeq, hc,
    Rat.den_intCast, Int.cast_nonneg, hs]

theorem safeParse_stream_mem (v : JValue) (env : Envelope)
    (hv : safeParse v = some env) : env.stream ∈ knownStreams := by
  match v with
  | .obj fields =>
    unfold safeParse at hv
    rcases h1 : parseString (jget fields "kind") with _ | k <;>
      rcases h2 : parseEnum (jget fields "stream") with _ | s <;>
      rcases h3 : parseSeq (jget fields "sequence") with _ | q <;>
      simp [h1, h2, h3] at hv
    rw [parseEnum_eq_some] at h2
    rw [← hv]
    exact h2.2
  | .null => simp [safeParse] at hv
  | .bool b => simp [safeParse] at hv
  | .num q => simp [safeParse] at hv
  | .str s => simp [safeParse] at hv
  | .arr es => simp [safeParse] at hv

theorem mapGet_mapSet_self {α : Type} (m : List (String × α)) (k : String)
    (v : α) : mapGet (mapSet m k v) k = some v := by
  induction m with
  | nil => simp [mapGet, mapSet]
  | cons p rest ih =>
    by_cases hp : p.1 = k
    · simp [mapSet, hp, mapGet]
    · simp [mapSet, hp, mapGet, ih]

theorem mapGet_mapSet_ne {α : Type} (m : List (String × α)) (k k2 : String)
    (v : α) (hne : k2 ≠ k) : mapGet (mapSet m k v) k2 = mapGet m k2 := by
  have hkk : ¬ k = k2 := fun h => hne h.symm
  induction m with
  | nil => simp [mapGet, mapSet, hkk]
  | cons p rest ih =>
    by_cases hp : p.1 = k
    · subst hp
      simp [mapSet, mapGet, hkk]
    · simp only [mapSet, hp, if_false, mapGet]
      by_cases hp2 : p.1 = k2 <;> simp [hp2, ih]

theorem filter_isGap_map_invoke (c : String) (env : Envelope)
    (hs : List Nat) :
    (hs.map (fun h => Event.invoke c h env)).filter Event.isGap = [] := by
  induction hs with
  | nil => rfl
  | cons a t ih => simp [Event.isGap, ih]

theorem filter_isInvoke_map_invoke (c : String) (env : Envelope)
    (hs : List Nat) :
    (hs.map (fun h => Event.invoke c h env)).filter Event.isInvoke =
      hs.map (fun h => Event.invoke c h env) := by
  induction hs with
  | nil => rfl
  | cons a t ih => simp [Event.isInvoke, ih]

theorem processParsed_none (st : Manager) (c : String) (v : JValue)
    (hv : safeParse v = none) : processParsed st c v = (st, []) := by
  unfold processParsed
  rw [hv]

theorem processParsed_eq (st : Manager) (c : String) (v : JValue)
    (env : Envelope) (hv : safeParse v = some env) :
    processParsed st c v =
      ({ st with lastSeq := mapSet st.lastSeq c env.sequence },
       (if env.sequence ≠ (mapGet st.lastSeq c).getD (env.sequence - 1) + 1
             ∧ st.gapHandler.isSome = true
        then [Event.gap c
                ((mapGet st.lastSeq c).getD (env.sequence - 1) + 1)
                env.sequence]
        else [])
       ++ ((mapGet st.handlers c).getD []).map
            (fun h => Event.invoke c h env)) := by
  unfold processParsed
  rw [hv]

theorem processParsed_handlers (st : Manager) (c : String) (v : JValue) :
    (processParsed st c v).1.handlers = st.handlers := by
  unfold processParsed
  rcases hv : safeParse v with _ | env <;> simp

theorem dispose_not_mem (st : Manager) (c : String) (h : Nat) :
    h ∉ (mapGet (dispose st c h).handlers c).getD [] := by
  simp [dispose, mapGet_mapSet_self, List.mem_filter]

theorem step_preserves_not_registered (st : Manager) (op : Op) (c : String)
    (h : Nat) (hop : op ≠ Op.subscribeOp c h)
    (hnot : h ∉ (mapGet st.handlers c).getD []) :
    h ∉ (mapGet (step st op).1.handlers c).getD [] := by
  match op with
  | .subscribeOp c2 h2 =>
    by_cases hc : c2 = c
    · subst hc
      have hh : ¬ h = h2 := by
        intro he
        exact hop (by rw [he])
      simp only [step, subscribe, mapGet_mapSet_self, Option.getD_some]
      simp [hnot, hh]
    · simpa [step, subscribe,
        mapGet_mapSet_ne _ _ _ _ (fun he => hc he.symm)] using hnot
  | .disposeOp c2 h2 =>
    by_cases hc : c2 = c
    · subst hc
      simp only [step, dispose, mapGet_mapSet_self, Option.getD_some]
      intro hmem
      exact hnot (List.mem_of_mem_filter hmem)
    · simpa [step, dispose,
        mapGet_mapSet_ne _ _ _ _ (fun he => hc he.symm)] using hnot
  | .connectOp c2 => simpa [step, connect] using hnot
  | .msg c2 v => simpa [step, processParsed_handlers] using hnot
  | .gapObserver g => simpa [step, onGapDetected] using hnot
  | .closeAllOp => simpa [step, closeAll] using hnot

theorem step_no_invoke (st : Manager) (op : Op) (c : String) (h : Nat)
    (hnot : h ∉ (mapGet st.handlers c).getD []) (env : Envelope) :
    Event.invoke c h env ∉ (step st op).2 := by
  match op with
  | .subscribeOp c2 h2 => simp [step]
  | .disposeOp c2 h2 => simp [step]
  | .connectOp c2 => simp [step]
  | .gapObserver g => simp [step]
  | .closeAllOp => simp [step, closeAll]
  | .msg c2 v =>
    show Event.invoke c h env ∉ (processParsed st c2 v).2
    rcases hv : safeParse v with _ | env2
    · simp [processParsed_none st c2 v hv]
    · rw [processParsed_eq st c2 v env2 hv]
      intro hmem
      rcases List.mem_append.mp hmem with hg | hi
      · revert hg
        split <;> simp
      · rcases List.mem_map.mp hi with ⟨g, hg, he⟩
        injection he with hc2 hgh henv
        subst hc2
        subst hgh
        exact hnot hg

theorem run_no_invoke (c : String) (h : Nat) (ops : List Op) :
    ∀ st : Manager, h ∉ (mapGet st.handlers c).getD [] →
    (∀ op ∈ ops, op ≠ Op.subscribeOp c h) →
    ∀ env, Event.invoke c h env ∉ (run st ops).2 := by
  induction ops with
  | nil =>
    intro st hnot hops env
    simp [run]
  | cons op rest ih =>
    intro st hnot hops env
    have hop : op ≠ Op.subscribeOp c h := hops op (by simp)
    have hrest : ∀ o ∈ rest, o ≠ Op.subscribeOp c h :=
      fun o ho => hops o (by simp [ho])
    simp only [run, List.mem_append, not_or]
    exact ⟨step_no_invoke st op c h hnot env,
      ih (step st op).1 (step_preserves_not_registered st op c h hop hnot)
        hrest env⟩

theorem processParsed_mkMsg_in_seq (st : Manager) (c kind : String) (k : Int)
    (hc : c ∈ knownStreams) (hk : 0 ≤ k)
    (hlast : mapGet st.lastSeq c = some (k - 1)) :
    processParsed st c (mkMsg c kind k) =
      ({ st with lastSeq := mapSet st.lastSeq c k },
       ((mapGet st.handlers c).getD []).map
         (fun h => Event.invoke c h ⟨kind, c, k, some (.obj [])⟩)) := by
  rw [processParsed_eq st c _ _ (safeParse_mkMsg c kind k hc hk)]
  simp [hlast]

theorem processList_consecutive (c : String) (hc : c ∈ knownStreams) :
    ∀ (n : Nat) (k : Int) (st : Manager), 0 ≤ k →
    mapGet st.lastSeq c = some (k - 1) →
    (processList st c (msgsFrom c k n)).2.filter Event.isGap = [] := by
  intro n
  induction n with
  | zero =>
    intro k st hk hlast
    simp [msgsFrom, processList]
  | succ m ih =>
    intro k st hk hlast
    simp only [msgsFrom, processList,
      processParsed_mkMsg_in_seq st c "tick" k hc hk hlast]
    rw [List.filter_append, filter_isGap_map_invoke, List.nil_append]
    exact ih (k + 1) _ (by omega)
      (by rw [mapGet_mapSet_self]; congr 1; omega)

theorem processParsed_mkMsg_first (st : Manager) (c kind : String) (k : Int)
    (hc : c ∈ knownStreams) (hk : 0 ≤ k)
    (hfresh : mapGet st.lastSeq c = none) :
    processParsed st c (mkMsg c kind k) =
      ({ st with lastSeq := mapSet st.lastSeq c k },
       ((mapGet st.handlers c).getD []).map
         (fun h => Event.invoke c h ⟨kind, c, k, some (.obj [])⟩)) := by
  rw [processParsed_eq st c _ _ (safeParse_mkMsg c kind k hc hk)]
  simp [hfresh]

/-! ### Claim theorems -/

/-- C1: the claim says processing a raw inbound message never throws, and a
string that cannot be decoded is dropped as a rejection. The code violates
this: `handleMessage` computes `JSON.parse(raw)` with no try/catch, so a
failed wire decode (`jsonDecode s = none`) makes the exception escape the
message callback — the `none` outcome of `handleMessage` — instead of being
dropped. No state was mutated before the throw, so the manager state is
intact for subsequent messages, but the pipeline does raise. -/
theorem c1_handleMessage_throws_on_malformed
    (jsonDecode : String → Option JValue) (st : Manager) (c s : String)
    (hs : jsonDecode s = none) :
    handleMessage jsonDecode st c (.str s) = none := by
  simp [handleMessage, hs]

/-- C1 witness: a concrete decoder rejecting a concrete wire string makes
`handleMessage` end in the thrown (`none`) outcome on a fresh manager. -/
theorem c1_handleMessage_throws_on_malformed_witness :
    (fun _ : String => (none : Option JValue)) "not json" = none ∧
    handleMessage (fun _ : String => (none : Option JValue)) Manager.init
      "market" (.str "not json") = none :=
  ⟨rfl, c1_handleMessage_throws_on_malformed (fun _ => none) Manager.init
    "market" "not json" rfl⟩

/-- C2: with a gap observer registered, when the stored last-accepted
sequence on a channel is `s` (the previous observed envelope) and the next
validated envelope on that channel's connection carries sequence
`env.sequence ≠ s + 1`, exactly one gap signal `(channel, s + 1,
env.sequence)` is emitted, the stored last-accepted sequence becomes
`env.sequence` (also when it is ≤ `s`), and the triggering envelope is
still dispatched to every subscriber of the channel, in order. -/
theorem c2_gap_signal (st : Manager) (c : String) (v : JValue)
    (env : Envelope) (s : Int) (hprev : mapGet st.lastSeq c = some s)
    (hobs : st.gapHandler.isSome = true) (hv : safeParse v = some env)
    (hgap : env.sequence ≠ s + 1) :
    (processParsed st c v).2.filter Event.isGap =
        [Event.gap c (s + 1) env.sequence] ∧
    mapGet (processParsed st c v).1.lastSeq c = some env.sequence ∧
    (processParsed st c v).2.filter Event.isInvoke =
      ((mapGet st.handlers c).getD []).map (fun h => Event.invoke c h env) := by
  rw [processParsed_eq st c v env hv]
  refine ⟨?_, ?_, ?_⟩
  · rw [List.filter_append, filter_isGap_map_invoke]
    simp [hprev, hgap, hobs, Event.isGap]
  · simp [mapGet_mapSet_self]
  · rw [List.filter_append, filter_isInvoke_map_invoke]
    simp [hprev, hgap, hobs, Event.isInvoke]

/-- The repository test scenario: a fresh manager with one subscriber and a
gap observer, after accepting sequence 1 on channel `market`. -/
def c2State : Manager :=
  (processParsed (onGapDetected (subscribe Manager.init "market" 7) 0)
    "market" (mkMsg "market" "tick" 1)).1

/-- C2 witness: on that state, sequence 3 arriving next on `market` emits
exactly the gap signal `("market", 2, 3)`. -/
theorem c2_gap_signal_witness :
    (processParsed c2State "market" (mkMsg "market" "tick" 3)).2.filter
        Event.isGap = [Event.gap "market" 2 3] :=
  (c2_gap_signal c2State "market" (mkMsg "market" "tick" 3)
    ⟨"tick", "market", 3, some (.obj [])⟩ 1 rfl rfl rfl (by decide)).1

/-- C3: on a channel with no recorded sequence, a run of validated envelopes
whose sequences count up from any `k ≥ 0` by exactly 1 produces no gap
signal at all — in particular the first observed message (the `n = 1` run)
never reports a gap, whatever `k` is: the code's expected value for an
unseen channel is the message's own sequence. -/
theorem c3_consecutive_no_gap (st : Manager) (c : String) (k : Int) (n : Nat)
    (hc : c ∈ knownStreams) (hk : 0 ≤ k)
    (hfresh : mapGet st.lastSeq c = none) :
    (processList st c (msgsFrom c k n)).2.filter Event.isGap = [] := by
  cases n with
  | zero => simp [msgsFrom, processList]
  | succ m =>
    simp only [msgsFrom, processList,
      processParsed_mkMsg_first st c "tick" k hc hk hfresh]
    rw [List.filter_append, filter_isGap_map_invoke, List.nil_append]
    exact processList_consecutive c hc m (k + 1) _ (by omega)
      (by rw [mapGet_mapSet_self]; congr 1; omega)

/-- C3 witness: the spec scenario — first message on `portfolio` carries
sequence 5, the next carries 6; no gap signal fires. -/
theorem c3_consecutive_no_gap_witness :
    (processList Manager.init "portfolio"
      (msgsFrom "portfolio" 5 2)).2.filter Event.isGap = [] :=
  c3_consecutive_no_gap Manager.init "portfolio" 5 2 (by decide) (by decide)
    rfl

/-- C4: an inbound value that decodes but fails any `envelopeSchema` check
is dropped with no observable side effect: the manager state — including
every channel's last-accepted sequence and the whole handler registry — is
returned unchanged and no event (no handler invocation, no gap signal) is
emitted. -/
theorem c4_invalid_dropped (st : Manager) (c : String) (v : JValue)
    (hv : safeParse v = none) :
    processParsed st c v = (st, []) :=
  processParsed_none st c v hv

/-- The state of the spec scenario for C4: channel `market` has accepted
sequence 1. -/
def c4State : Manager :=
  (processParsed (subscribe Manager.init "market" 7) "market"
    (mkMsg "market" "tick" 1)).1

/-- C4 witness: an envelope missing the channel field is dropped — state
unchanged (last-accepted sequence on `market` still 1), no events. -/
theorem c4_invalid_dropped_witness :
    processParsed c4State "market"
        (.obj [("kind", .str "tick"),
               ("sequence", .num ((2 : Int) : Rat)),
               ("payload", .obj [])]) = (c4State, []) ∧
    mapGet c4State.lastSeq "market" = some 1 :=
  ⟨c4_invalid_dropped c4State "market" _ rfl, rfl⟩

/-- C5 counterexample: the claim says absence of `payload` is a rejection,
but `z.unknown()` accepts an absent key, so an object with only `kind`,
`stream` and `sequence` is accepted by `envelopeSchema.safeParse` (with an
absent payload) rather than rejected. -/
theorem c5_payload_absent_accepted :
    safeParse (.obj [("kind", .str "tick"), ("stream", .str "market"),
        ("sequence", .num ((1 : Int) : Rat))]) =
      some ⟨"tick", "market", 1, none⟩ := rfl

/-- C5 amended: the validator accepts a decoded value iff it is a structured
object whose `kind` is present and a string, whose channel field is one of
the fixed known channel names, and whose `sequence` is an integer ≥ 0; the
`payload` field is unconstrained and may be absent. -/
theorem c5_validator_iff (v : JValue) :
    (safeParse v).isSome = true ↔ specAccepts v := by
  constructor
  · intro h
    match v with
    | .obj fields =>
      refine ⟨fields, rfl, ?_⟩
      unfold safeParse at h
      rcases h1 : parseString (jget fields "kind") with _ | k <;>
        rcases h2 : parseEnum (jget fields "stream") with _ | s <;>
        rcases h3 : parseSeq (jget fields "sequence") with _ | q <;>
        simp [h1, h2, h3] at h
      rw [parseString_eq_some] at h1
      rw [parseEnum_eq_some] at h2
      rw [parseSeq_eq_some] at h3
      obtain ⟨q0, hq0, hden, hpos, _⟩ := h3
      exact ⟨⟨k, h1⟩, ⟨s, h2.1, h2.2⟩, ⟨q0, hq0, hden, hpos⟩⟩
    | .null => simp [safeParse] at h
    | .bool b => simp [safeParse] at h
    | .num q => simp [safeParse] at h
    | .str s => simp [safeParse] at h
    | .arr es => simp [safeParse] at h
  · rintro ⟨fields, rfl, ⟨k, hk⟩, ⟨s, hs, hmem⟩, ⟨q, hq, hden, hpos⟩⟩
    unfold safeParse
    have h1 : parseString (jget fields "kind") = some k :=
      (parseString_eq_some _ _).mpr hk
    have h2 : parseEnum (jget fields "stream") = some s :=
      (parseEnum_eq_some _ _).mpr ⟨hs, hmem⟩
    have h3 : parseSeq (jget fields "sequence") = some q.num :=
      (parseSeq_eq_some _ _).mpr ⟨q, hq, hden, hpos, rfl⟩
    simp [h1, h2, h3]

/-- C5 witness: a fully populated wire object satisfies the spec-level
acceptance predicate, via the characterization applied at that input. -/
theorem c5_validator_iff_witness :
    specAccepts (.obj [("kind", .str "tick"), ("stream", .str "market"),
      ("sequence", .num ((0 : Int) : Rat)), ("payload", .null)]) :=
  (c5_validator_iff _).mp rfl

/-- C6: dispatching a validated envelope on a channel invokes exactly the
currently registered handlers of that channel, once per registration, in
registration order (the emitted invocation list is the registration list);
and once a handler's disposer has run, no later operation sequence that does
not re-subscribe that handler on that channel ever invokes it from a
dispatch on that channel. -/
theorem c6_dispatch_exactly_once :
    (∀ (st : Manager) (c : String) (v : JValue) (env : Envelope),
      safeParse v = some env →
      (processParsed st c v).2.filter Event.isInvoke =
        ((mapGet st.handlers c).getD []).map
          (fun h => Event.invoke c h env)) ∧
    (∀ (st : Manager) (c : String) (h : Nat) (ops : List Op),
      (∀ op ∈ ops, op ≠ Op.subscribeOp c h) →
      ∀ env, Event.invoke c h env ∉ (run (dispose st c h) ops).2) := by
  constructor
  · intro st c v env hv
    rw [processParsed_eq st c v env hv, List.filter_append,
      filter_isInvoke_map_invoke]
    split <;> simp [Event.isInvoke]
  · intro st c h ops hops env
    exact run_no_invoke c h ops (dispose st c h) (dispose_not_mem st c h)
      hops env

/-- Two handlers subscribed to channel `system`, in order. -/
def c6State : Manager :=
  subscribe (subscribe Manager.init "system" 1) "system" 2

/-- C6 witness: after disposing the first handler on `system`, delivering
one envelope invokes only the second handler, and the disposed handler is
not invoked by the message operation. -/
theorem c6_dispatch_exactly_once_witness :
    (processParsed (dispose c6State "system" 1) "system"
        (mkMsg "system" "tick" 0)).2.filter Event.isInvoke =
      [Event.invoke "system" 2 ⟨"tick", "system", 0, some (.obj [])⟩] ∧
    Event.invoke "system" 1 ⟨"tick", "system", 0, some (.obj [])⟩ ∉
      (run (dispose c6State "system" 1)
        [Op.msg "system" (mkMsg "system" "tick" 0)]).2 := by
  constructor
  · rw [c6_dispatch_exactly_once.1 (dispose c6State "system" 1) "system"
      (mkMsg "system" "tick" 0) ⟨"tick", "system", 0, some (.obj [])⟩ rfl]
    rfl
  · exact c6_dispatch_exactly_once.2 c6State "system" 1
      [Op.msg "system" (mkMsg "system" "tick" 0)]
      (by
        intro op hop
        rw [List.mem_singleton] at hop
        subst hop
        intro hcon
        exact Op.noConfusion hcon)
      ⟨"tick", "system", 0, some (.obj [])⟩

/-- C7: the disposer removes from its channel exactly the entries equal to
the handler identity it closed over (the surviving entries are the other
handlers, kept in registration order), leaves every other channel's handler
list untouched, and running the same disposer again is a no-op on every
channel's handler list. -/
theorem c7_disposer (st : Manager) (c : String) (h : Nat) :
    (mapGet (dispose st c h).handlers c).getD [] =
      ((mapGet st.handlers c).getD []).filter (fun g => g ≠ h) ∧
    h ∉ (mapGet (dispose st c h).handlers c).getD [] ∧
    (∀ c2, c2 ≠ c →
      mapGet (dispose st c h).handlers c2 = mapGet st.handlers c2) ∧
    (∀ c2, (mapGet (dispose (dispose st c h) c h).handlers c2).getD [] =
      (mapGet (dispose st c h).handlers c2).getD []) := by
  refine ⟨?_, dispose_not_mem st c h, ?_, ?_⟩
  · simp [dispose, mapGet_mapSet_self]
  · intro c2 hne
    simp [dispose, mapGet_mapSet_ne _ _ _ _ hne]
  · intro c2
    by_cases hc2 : c2 = c
    · subst hc2
      simp only [dispose, mapGet_mapSet_self, Option.getD_some]
      rw [List.filter_filter]
      simp
    · simp [dispose, mapGet_mapSet_ne, hc2]

/-- Two handlers subscribed to channel `market`, in order. -/
def c7State : Manager :=
  subscribe (subscribe Manager.init "market" 1) "market" 2

/-- C7 witness: disposing handler 1 on `market` leaves exactly handler 2
registered there and leaves `portfolio` untouched. -/
theorem c7_disposer_witness :
    (mapGet (dispose c7State "market" 1).handlers "market").getD [] = [2] ∧
    mapGet (dispose c7State "market" 1).handlers "portfolio" =
      mapGet c7State.handlers "portfolio" := by
  have hthm := c7_disposer c7State "market" 1
  exact ⟨by rw [hthm.1]; rfl, hthm.2.2.1 "portfolio" (by decide)⟩

/-- A manager that accepted sequence 5 on `market` (with an observer and a
subscriber), then ran `closeAll` and reconnected. -/
def c8State : Manager :=
  (run Manager.init [Op.gapObserver 0, Op.subscribeOp "market" 1,
    Op.connectOp "market", Op.msg "market" (mkMsg "market" "tick" 5),
    Op.closeAllOp, Op.connectOp "market"]).1

/-- The same subscribe/connect cycle on a freshly constructed manager, with
no message traffic before it. -/
def c8FreshState : Manager :=
  (run Manager.init [Op.gapObserver 0, Op.subscribeOp "market" 1,
    Op.connectOp "market"]).1

/-- C8 counterexample: the claim says `closeAll` clears sequence state and
subscriptions, so that the first message after a reset establishes a new
baseline with no gap. In the code `closeAll` only closes and clears the
sockets map: after closeAll and a reconnect, the first message (sequence 7)
is still compared against the pre-close last-accepted sequence 5 and fires
the gap signal `("market", 6, 7)`, while the same cycle on a fresh instance
fires none; the old subscription and the old sequence state survive. -/
theorem c8_closeAll_not_full_reset :
    (processParsed c8State "market" (mkMsg "market" "tick" 7)).2.filter
        Event.isGap = [Event.gap "market" 6 7] ∧
    (processParsed c8FreshState "market" (mkMsg "market" "tick" 7)).2.filter
        Event.isGap = [] ∧
    (mapGet c8State.handlers "market").getD [] = [1] ∧
    mapGet c8State.lastSeq "market" = some 5 :=
  ⟨rfl, rfl, rfl, rfl⟩

/-- C8 amended: `closeAll` closes every stored transport connection and
discards the connection map, and does nothing else: the per-channel
last-accepted sequence state, the subscription registry and the gap
observer all persist, so a subsequent subscribe/connect cycle resumes
sequence tracking against the pre-close state instead of behaving like a
fresh instance. -/
theorem c8_closeAll_behavior (st : Manager) :
    (closeAll st).1.sockets = [] ∧
    (closeAll st).2 = st.sockets.map (fun p => Event.closed p.2) ∧
    (closeAll st).1.handlers = st.handlers ∧
    (closeAll st).1.lastSeq = st.lastSeq ∧
    (closeAll st).1.gapHandler = st.gapHandler :=
  ⟨rfl, rfl, rfl, rfl, rfl⟩

/-- C9: routing and sequence tracking key on the channel the connection was
opened under, not on the envelope's own channel field: a validated envelope
whose channel field names a different member of the fixed set is still
accepted (the field is checked only for membership), is counted against the
connection channel's last-accepted sequence (the field's channel is left
untouched), is dispatched to the connection channel's subscribers, and any
gap signal names the connection channel. -/
theorem c9_routing_by_connection (st : Manager) (c : String) (v : JValue)
    (env : Envelope) (hv : safeParse v = some env) (hne : env.stream ≠ c) :
    env.stream ∈ knownStreams ∧
    mapGet (processParsed st c v).1.lastSeq c = some env.sequence ∧
    mapGet (processParsed st c v).1.lastSeq env.stream =
      mapGet st.lastSeq env.stream ∧
    (processParsed st c v).2.filter Event.isInvoke =
      ((mapGet st.handlers c).getD []).map (fun h => Event.invoke c h env) ∧
    (∀ g e a, Event.gap g e a ∈ (processParsed st c v).2 → g = c) := by
  refine ⟨safeParse_stream_mem v env hv, ?_, ?_, ?_, ?_⟩
  · rw [processParsed_eq st c v env hv]
    exact mapGet_mapSet_self _ _ _
  · rw [processParsed_eq st c v env hv]
    exact mapGet_mapSet_ne _ _ _ _ hne
  · rw [processParsed_eq st c v env hv, List.filter_append,
      filter_isInvoke_map_invoke]
    split <;> simp [Event.isInvoke]
  · rw [processParsed_eq st c v env hv]
    intro g e a hmem
    rcases List.mem_append.mp hmem with hg | hi
    · revert hg
      split
      · intro hg
        rw [List.mem_singleton] at hg
        exact (Event.gap.inj hg).1
      · intro hg
        simp at hg
    · exfalso
      rcases List.mem_map.mp hi with ⟨x, hx, hex⟩
      exact Event.noConfusion hex

/-- A manager with subscribers on `market` (handler 7) and `portfolio`
(handler 8) that accepted sequence 1 on the `market` connection. -/
def c9State : Manager :=
  (processParsed (subscribe (subscribe Manager.init "market" 7)
    "portfolio" 8) "market" (mkMsg "market" "tick" 1)).1

/-- C9 witness: an envelope whose channel field says `portfolio`, arriving
on the `market` connection, updates the `market` sequence to 2 and leaves
the `portfolio` sequence state untouched. -/
theorem c9_routing_by_connection_witness :
    mapGet (processParsed c9State "market"
      (mkMsg "portfolio" "tick" 2)).1.lastSeq "market" = some 2 ∧
    mapGet (processParsed c9State "market"
        (mkMsg "portfolio" "tick" 2)).1.lastSeq "portfolio" =
      mapGet c9State.lastSeq "portfolio" := by
  have hthm := c9_routing_by_connection c9State "market"
    (mkMsg "portfolio" "tick" 2) ⟨"tick", "portfolio", 2, some (.obj [])⟩
    rfl (by decide)
  exact ⟨hthm.2.1, hthm.2.2.1⟩

/-- C10: with no gap observer registered, a sequence mismatch produces no
signal of any kind, yet processing is otherwise identical: the received
sequence still overwrites the stored last-accepted value and the envelope
is still dispatched to every subscriber. Registering an observer is a pure
field update emitting no event, so gaps that occurred earlier are never
replayed to a later-registered observer. -/
theorem c10_no_observer :
    (∀ (st : Manager) (c : String) (v : JValue) (env : Envelope) (s : Int),
      st.gapHandler = none → mapGet st.lastSeq c = some s →
      safeParse v = some env → env.sequence ≠ s + 1 →
      (processParsed st c v).2.filter Event.isGap = [] ∧
      mapGet (processParsed st c v).1.lastSeq c = some env.sequence ∧
      (processParsed st c v).2.filter Event.isInvoke =
        ((mapGet st.handlers c).getD []).map
          (fun h => Event.invoke c h env)) ∧
    (∀ (st : Manager) (g : Nat),
      step st (Op.gapObserver g) = ({ st with gapHandler := some g }, [])) := by
  constructor
  · intro st c v env s hobs hprev hv hgap
    rw [processParsed_eq st c v env hv]
    refine ⟨?_, ?_, ?_⟩
    · rw [List.filter_append, filter_isGap_map_invoke]
      simp [hobs]
    · exact mapGet_mapSet_self _ _ _
    · rw [List.filter_append, filter_isInvoke_map_invoke]
      simp [hobs]
  · intro st g
    rfl

/-- A manager with one `market` subscriber, no observer, after accepting
sequence 1 on `market`. -/
def c10State : Manager :=
  (processParsed (subscribe Manager.init "market" 7) "market"
    (mkMsg "market" "tick" 1)).1

/-- C10 witness: sequence 5 after sequence 1 with no observer emits no gap
signal but still stores 5 as the last-accepted sequence. -/
theorem c10_no_observer_witness :
    (processParsed c10State "market" (mkMsg "market" "tick" 5)).2.filter
        Event.isGap = [] ∧
    mapGet (processParsed c10State "market"
      (mkMsg "market" "tick" 5)).1.lastSeq "market" = some 5 := by
  have hthm := c10_no_observer.1 c10State "market"
    (mkMsg "market" "tick" 5) ⟨"tick", "market", 5, some (.obj [])⟩ 1
    rfl rfl rfl (by decide)
  exact ⟨hthm.1, hthm.2.1⟩

end TradeBot
